import Mathlib

/-!
Shallow embedding of `src/src/lib.rs` (crate `cfg`): a context-free grammar
data structure over a flat `u64` symbol space split by a `last_token`
threshold.

Modelling conventions:
* `u64` values become `Nat`.  No arithmetic is performed on symbols anywhere
  in the source except the literal `-1` in `Cfg::new`, which on a `u64`
  field wraps to `2^64 - 1` (pre-1.0 Rust permitted unary negation on
  unsigned integers, with wrapping semantics); we write that wrap out
  explicitly.  The `symbol as uint` casts are identities on a 64-bit
  platform and disappear.
* `VecMap<V>` (a map from numeric keys to `V`) becomes an association list
  `Table V = List (Nat × V)`.  `get` returns the first binding of a key;
  `insert` replaces the binding in place when the key is present (as
  `VecMap::insert` does) and otherwise adds a new binding, returning the
  old value.  The only difference from `VecMap` is the position at which a
  fresh key is stored; no operation of the source observes cross-key order
  (the validation loop in `from_pieces` only determines a boolean that is
  independent of iteration order).
* `panic!`/`assert!` failures become `Except.error ()`: `add_rule` and
  `get_rules` return `Except Unit _`, where `.error ()` models the fatal
  assertion `assert!(variable > self.last_token)`.
* `Option<T>` becomes `Option T` (`from_pieces`, `name`, `set_name`, and
  the payload of `get_rules`).
-/

/-- Rule is `pub type Rule = Vec<u64>;`: one production body, an ordered
sequence of symbol ids. -/
abbrev Rule : Type := List Nat

/-- Table models `VecMap<V>`: a finite map from numeric ids to `V`,
embedded as an association list. -/
abbrev Table (V : Type) : Type := List (Nat × V)

/-- Table.get models `VecMap::get`: the value bound to `k`, if any. -/
def Table.get (m : Table V) (k : Nat) : Option V :=
  match m with
  | [] => none
  | (k₁, v₁) :: rest => if k₁ = k then some v₁ else Table.get rest k

/-- Table.insert models `VecMap::insert`: binds `k` to `v`, replacing an
existing binding in place, and returns the previous value (if any)
alongside the updated map. -/
def Table.insert (m : Table V) (k : Nat) (v : V) : Option V × Table V :=
  match m with
  | [] => (none, [(k, v)])
  | (k₁, v₁) :: rest =>
    if k₁ = k then (some v₁, (k, v) :: rest)
    else
      let r := Table.insert rest k v
      (r.1, (k₁, v₁) :: r.2)

/-- Cfg mirrors `pub struct Cfg`: production table, name table, start
symbol and the token/variable threshold. -/
structure Cfg where
  rules : Table (List Rule)
  symbol_map : Table String
  start : Nat
  last_token : Nat
  deriving DecidableEq

/-- Cfg.new models `Cfg::new(last_token)`: empty tables, and
`start: -1`, which stored in the `u64` field wraps to `2^64 - 1`. -/
def Cfg.new (last_token : Nat) : Cfg :=
  { rules := []
    symbol_map := []
    start := 2 ^ 64 - 1
    last_token := last_token }

/-- Cfg.from_pieces models `Cfg::from_pieces`: reject a token start
symbol, then reject any rule body mentioning a variable (symbol above
`last_token`) that has no entry in `rules`; otherwise assemble the
grammar. -/
def Cfg.from_pieces (rules : Table (List Rule)) (symbol_map : Table String)
    (start last_token : Nat) : Option Cfg :=
  if start ≤ last_token then none
  else if rules.any (fun e => e.2.any (fun rule => rule.any (fun symbol =>
      decide (last_token < symbol) && (Table.get rules symbol).isNone)))
  then none
  else some { rules := rules, symbol_map := symbol_map, start := start,
              last_token := last_token }

/-- Cfg.get_start models `Cfg::get_start`. -/
def Cfg.get_start (c : Cfg) : Nat :=
  c.start

/-- Cfg.name models `Cfg::name`: look the symbol up in the name table. -/
def Cfg.name (c : Cfg) (symbol : Nat) : Option String :=
  Table.get c.symbol_map symbol

/-- Cfg.add_rule models `Cfg::add_rule`: assert that `v` is a variable
(`.error ()` models the fatal assertion), then push `body` onto the
existing alternative list for `v`, or create a fresh singleton list. -/
def Cfg.add_rule (c : Cfg) (v : Nat) (body : Rule) : Except Unit Cfg :=
  if c.last_token < v then
    match Table.get c.rules v with
    | some rs => .ok { c with rules := (Table.insert c.rules v (rs ++ [body])).2 }
    | none => .ok { c with rules := (Table.insert c.rules v [body]).2 }
  else .error ()

/-- Cfg.set_name models `Cfg::set_name`: insert into the name table and
return the previous name, if any. -/
def Cfg.set_name (c : Cfg) (symbol : Nat) (n : String) : Option String × Cfg :=
  let r := Table.insert c.symbol_map symbol n
  (r.1, { c with symbol_map := r.2 })

/-- Cfg.get_rules models `Cfg::get_rules`: assert that `v` is a variable
(`.error ()` models the fatal assertion), then look it up in the
production table. -/
def Cfg.get_rules (c : Cfg) (v : Nat) : Except Unit (Option (List Rule)) :=
  if c.last_token < v then .ok (Table.get c.rules v)
  else .error ()

/-- Op is one mutating call on a grammar handle: the two mutators the
source exposes after construction (`add_rule` and `set_name`).  Used to
state claims about symbols an execution never touched. -/
inductive Op where
  | addRule (v : Nat) (body : Rule) : Op
  | setName (symbol : Nat) (n : String) : Op
  deriving DecidableEq

/-- Op.namesSym decides whether an operation sets the name of `s`. -/
def Op.namesSym (s : Nat) : Op → Bool
  | .setName s₂ _ => s₂ == s
  | _ => false

/-- Op.rulesFor decides whether an operation adds a rule for variable `v`. -/
def Op.rulesFor (v : Nat) : Op → Bool
  | .addRule v₂ _ => v₂ == v
  | _ => false

/-- Cfg.applyOps runs a sequence of mutating calls; the result is `none`
when some `add_rule` hits its fatal assertion (the program aborts). -/
def Cfg.applyOps (c : Cfg) : List Op → Option Cfg
  | [] => some c
  | .addRule v body :: rest =>
    match c.add_rule v body with
    | .ok c₂ => c₂.applyOps rest
    | .error _ => none
  | .setName symbol n :: rest => ((c.set_name symbol n).2).applyOps rest

/-! Basic lemmas about the `Table` operations. -/

theorem Table.fst_insert (m : Table V) (k : Nat) (v : V) :
    (Table.insert m k v).1 = Table.get m k := by
  induction m with
  | nil => rfl
  | cons p rest ih =>
    obtain ⟨k₁, v₁⟩ := p
    by_cases h : k₁ = k <;> simp [Table.insert, Table.get, h, ih]

theorem Table.get_insert_self (m : Table V) (k : Nat) (v : V) :
    Table.get (Table.insert m k v).2 k = some v := by
  induction m with
  | nil => simp [Table.insert, Table.get]
  | cons p rest ih =>
    obtain ⟨k₁, v₁⟩ := p
    by_cases h : k₁ = k <;> simp [Table.insert, Table.get, h, ih]

theorem Table.get_insert_ne (m : Table V) (k k' : Nat) (v : V) (h : k ≠ k') :
    Table.get (Table.insert m k v).2 k' = Table.get m k' := by
  induction m with
  | nil => simp [Table.insert, Table.get, h]
  | cons p rest ih =>
    obtain ⟨k₁, v₁⟩ := p
    by_cases h₁ : k₁ = k
    · subst h₁
      simp [Table.insert, Table.get, h]
    · simp [Table.insert, Table.get, h₁, ih]

/-! Characterisation of the `from_pieces` validation. -/

theorem Cfg.dangling_check_iff (rules : Table (List Rule)) (last_token : Nat) :
    (rules.any (fun e => e.2.any (fun rule => rule.any (fun symbol =>
        decide (last_token < symbol) && (Table.get rules symbol).isNone))) = true) ↔
      ∃ e ∈ rules, ∃ rule ∈ e.2, ∃ symbol ∈ rule,
        last_token < symbol ∧ Table.get rules symbol = none := by
  constructor
  · intro hany
    rw [List.any_eq_true] at hany
    obtain ⟨e, he, hane⟩ := hany
    rw [List.any_eq_true] at hane
    obtain ⟨rule, hr, hanr⟩ := hane
    rw [List.any_eq_true] at hanr
    obtain ⟨symbol, hs, hsym⟩ := hanr
    rw [Bool.and_eq_true, decide_eq_true_eq, Option.isNone_iff_eq_none] at hsym
    exact ⟨e, he, rule, hr, symbol, hs, hsym.1, hsym.2⟩
  · intro hc
    obtain ⟨e, he, rule, hr, symbol, hs, hlt, hnone⟩ := hc
    rw [List.any_eq_true]
    refine ⟨e, he, ?_⟩
    rw [List.any_eq_true]
    refine ⟨rule, hr, ?_⟩
    rw [List.any_eq_true]
    refine ⟨symbol, hs, ?_⟩
    rw [Bool.and_eq_true, decide_eq_true_eq, Option.isNone_iff_eq_none]
    exact ⟨hlt, hnone⟩

theorem Cfg.from_pieces_eq_none_iff (rules : Table (List Rule))
    (symbol_map : Table String) (start last_token : Nat) :
    Cfg.from_pieces rules symbol_map start last_token = none ↔
      start ≤ last_token ∨
      ∃ e ∈ rules, ∃ rule ∈ e.2, ∃ symbol ∈ rule,
        last_token < symbol ∧ Table.get rules symbol = none := by
  unfold Cfg.from_pieces
  by_cases h₁ : start ≤ last_token
  · simp [h₁]
  · rw [if_neg h₁]
    by_cases h₂ : rules.any (fun e => e.2.any (fun rule => rule.any (fun symbol =>
        decide (last_token < symbol) && (Table.get rules symbol).isNone))) = true
    · rw [if_pos h₂]
      simp only [true_iff]
      exact Or.inr ((Cfg.dangling_check_iff rules last_token).mp h₂)
    · rw [if_neg h₂]
      constructor
      · intro hc
        exact absurd hc (by simp)
      · intro hc
        rcases hc with hc | hc
        · exact absurd hc h₁
        · exact absurd ((Cfg.dangling_check_iff rules last_token).mpr hc) h₂

theorem Cfg.from_pieces_eq_some (rules : Table (List Rule))
    (symbol_map : Table String) (start last_token : Nat)
    (h₁ : last_token < start)
    (h₂ : ∀ e ∈ rules, ∀ rule ∈ e.2, ∀ symbol ∈ rule,
      last_token < symbol → Table.get rules symbol ≠ none) :
    Cfg.from_pieces rules symbol_map start last_token =
      some { rules := rules, symbol_map := symbol_map, start := start,
             last_token := last_token } := by
  unfold Cfg.from_pieces
  rw [if_neg (not_le.mpr h₁), if_neg]
  intro hany
  obtain ⟨e, he, rule, hr, symbol, hs, hlt, hnone⟩ :=
    (Cfg.dangling_check_iff rules last_token).mp hany
  exact h₂ e he rule hr symbol hs hlt hnone

/-- Helper shared by the `add_rule` claims: a successful `add_rule v body`
leaves `get_rules v` returning the old alternatives (empty when the
variable had no entry) with `body` appended last. -/
theorem Cfg.add_rule_get (c : Cfg) (v : Nat) (body : Rule) (h : c.last_token < v) :
    (c.add_rule v body).map (fun c₂ => c₂.get_rules v) =
      .ok (.ok (some ((Table.get c.rules v).getD [] ++ [body]))) := by
  unfold Cfg.add_rule
  rw [if_pos h]
  cases hg : Table.get c.rules v with
  | none => simp [Cfg.get_rules, Except.map, h, Table.get_insert_self]
  | some rs => simp [Cfg.get_rules, Except.map, h, Table.get_insert_self]

/-! Claim theorems. -/

/-- C1: if some body in the production table contains a symbol `v2` above
`last_token` that has no entry in the table, then `from_pieces` returns
`none`, whatever `start`, `last_token` and the name table are. -/
theorem from_pieces_rejects_dangling (production_table : Table (List Rule))
    (name_table : Table String) (start last_token : Nat)
    (v1 : Nat) (bodies : List Rule) (body : Rule) (v2 : Nat)
    (hv1 : (v1, bodies) ∈ production_table) (hbody : body ∈ bodies)
    (hv2 : v2 ∈ body) (hvar : last_token < v2)
    (hdangling : Table.get production_table v2 = none) :
    Cfg.from_pieces production_table name_table start last_token = none :=
  (Cfg.from_pieces_eq_none_iff production_table name_table start last_token).mpr
    (Or.inr ⟨(v1, bodies), hv1, body, hbody, v2, hv2, hvar, hdangling⟩)

/-- Witness for C1: the table `{3 ↦ [[4]]}` mentions variable `4`
(with `last_token = 2`) but has no entry for it, so `from_pieces` is
absent even though `start = 3` is a valid variable. -/
theorem from_pieces_rejects_dangling_witness :
    Cfg.from_pieces [(3, [[4]])] [] 3 2 = none :=
  from_pieces_rejects_dangling [(3, [[4]])] [] 3 2 3 [[4]] [4] 4
    (by decide) (by decide) (by decide) (by decide) (by decide)

/-- C2: whenever `start ≤ last_token` (the start symbol is a token),
`from_pieces` returns `none`, for every production table and name
table. -/
theorem from_pieces_rejects_token_start (production_table : Table (List Rule))
    (name_table : Table String) (t L : Nat) (h : t ≤ L) :
    Cfg.from_pieces production_table name_table t L = none := by
  unfold Cfg.from_pieces
  rw [if_pos h]

/-- Witness for C2: `start = 2 = last_token` is rejected even on a
non-empty, otherwise well-formed table. -/
theorem from_pieces_rejects_token_start_witness :
    Cfg.from_pieces [(3, [[0]])] [] 2 2 = none :=
  from_pieces_rejects_token_start [(3, [[0]])] [] 2 2 (by decide)

/-- C3: if `last_token < start` and every above-threshold symbol occurring
in a body has an entry in the production table, then `from_pieces`
succeeds and `get_start` on the result is exactly `start`. -/
theorem from_pieces_accepts_closed (production_table : Table (List Rule))
    (name_table : Table String) (start last_token : Nat)
    (hstart : last_token < start)
    (hclosed : ∀ e ∈ production_table, ∀ rule ∈ e.2, ∀ symbol ∈ rule,
      last_token < symbol → Table.get production_table symbol ≠ none) :
    (Cfg.from_pieces production_table name_table start last_token).isSome = true ∧
    (Cfg.from_pieces production_table name_table start last_token).map Cfg.get_start
      = some start := by
  rw [Cfg.from_pieces_eq_some production_table name_table start last_token hstart hclosed]
  exact ⟨rfl, rfl⟩

/-- Witness for C3: `last_token = 2`, variables 3 and 4 with rules whose
variable references stay in `{3, 4}`, and `start = 3`: construction
succeeds and `get_start` returns 3. -/
theorem from_pieces_accepts_closed_witness :
    (Cfg.from_pieces [(3, [[0, 4]]), (4, [[1], [3]])] [] 3 2).isSome = true ∧
    (Cfg.from_pieces [(3, [[0, 4]]), (4, [[1], [3]])] [] 3 2).map Cfg.get_start
      = some 3 :=
  from_pieces_accepts_closed [(3, [[0, 4]]), (4, [[1], [3]])] [] 3 2
    (by decide) (by decide)

/-- C4: calling `add_rule` or `get_rules` with an id at or below
`last_token` hits the fatal assertion (modelled as `.error ()`) instead of
returning or failing recoverably. -/
theorem add_get_rules_assert_token (c : Cfg) (i : Nat) (body : Rule)
    (h : i ≤ c.last_token) :
    c.add_rule i body = .error () ∧ c.get_rules i = .error () := by
  unfold Cfg.add_rule Cfg.get_rules
  rw [if_neg (not_lt.mpr h), if_neg (not_lt.mpr h)]
  exact ⟨rfl, rfl⟩

/-- Witness for C4: with `last_token = 5`, both id `0` and id `5` (the
threshold itself) make `add_rule` and `get_rules` abort. -/
theorem add_get_rules_assert_token_witness :
    ((Cfg.new 5).add_rule 0 [] = .error () ∧ (Cfg.new 5).get_rules 0 = .error ()) ∧
    ((Cfg.new 5).add_rule 5 [] = .error () ∧ (Cfg.new 5).get_rules 5 = .error ()) :=
  ⟨add_get_rules_assert_token (Cfg.new 5) 0 [] (by decide),
   add_get_rules_assert_token (Cfg.new 5) 5 [] (by decide)⟩

/-- C5: for a variable `v`, `add_rule v body` appends `body` after the
existing alternatives for `v` in order (creating the list when absent), so
`get_rules v` afterwards returns the old list with `body` last. -/
theorem add_rule_append_order (c : Cfg) (v : Nat) (body : Rule)
    (h : c.last_token < v) :
    (c.add_rule v body).map (fun c₂ => c₂.get_rules v) =
      .ok (.ok (some ((Table.get c.rules v).getD [] ++ [body]))) :=
  Cfg.add_rule_get c v body h

/-- Witness for C5: from the empty grammar with `last_token = 0`,
`add_rule 1 [0]` then `add_rule 1 [0,0]` makes `get_rules 1` return
exactly `[[0], [0,0]]`. -/
theorem add_rule_append_order_witness :
    ((Cfg.new 0).add_rule 1 [0]).map (fun c₂ => c₂.get_rules 1)
        = .ok (.ok (some [[0]])) ∧
    (((Cfg.new 0).add_rule 1 [0]).bind fun c₂ => c₂.add_rule 1 [0, 0]).map
        (fun c₂ => c₂.get_rules 1) = .ok (.ok (some [[0], [0, 0]])) :=
  ⟨by simpa [Cfg.new, Table.get] using add_rule_append_order (Cfg.new 0) 1 [0] (by decide),
   rfl⟩

/-- Counterexample for C6: the claim says the fresh grammar's start is a
sentinel that does not satisfy `start > last_token`; but `Cfg::new` stores
the literal `-1` in a `u64` field, so the start is `2^64 - 1` and at
`last_token = 0` it does satisfy `start > last_token`. -/
theorem new_start_sentinel_counterexample :
    (Cfg.new 0).last_token < (Cfg.new 0).get_start := by decide

/-- C6 amended: `Cfg::new last_token` returns empty production and name
tables and threshold `last_token`, but its start sentinel is the wrapped
`-1`, i.e. `2^64 - 1`, which satisfies `start > last_token` whenever
`last_token < 2^64 - 1`. -/
theorem new_empty_grammar_amended (L : Nat) :
    (Cfg.new L).rules = [] ∧ (Cfg.new L).symbol_map = [] ∧
    (Cfg.new L).last_token = L ∧ (Cfg.new L).get_start = 2 ^ 64 - 1 ∧
    (L < 2 ^ 64 - 1 → (Cfg.new L).last_token < (Cfg.new L).get_start) :=
  ⟨rfl, rfl, rfl, rfl, fun h => h⟩

/-- Witness for C6 amended: at `last_token = 0` the fresh grammar has
empty tables and a start strictly above the threshold. -/
theorem new_empty_grammar_amended_witness :
    (Cfg.new 0).rules = [] ∧ (Cfg.new 0).last_token < (Cfg.new 0).get_start :=
  ⟨(new_empty_grammar_amended 0).1, (new_empty_grammar_amended 0).2.2.2.2 (by decide)⟩

/-- C7: `set_name` returns the previously associated name (absent when
none existed) for any symbol id, and `name` then returns the new name; in
particular `set_name 5 "A"` then `set_name 5 "B"` returns `"A"` on the
second call and `name 5` returns `"B"` afterwards. -/
theorem set_name_replace :
    (∀ (c : Cfg) (s : Nat) (n : String),
      (c.set_name s n).1 = c.name s ∧ ((c.set_name s n).2).name s = some n) ∧
    ((((Cfg.new 0).set_name 5 "A").2).set_name 5 "B").1 = some "A" ∧
    (((((Cfg.new 0).set_name 5 "A").2).set_name 5 "B").2).name 5 = some "B" := by
  refine ⟨fun c s n => ⟨?_, ?_⟩, rfl, rfl⟩
  · exact Table.fst_insert c.symbol_map s n
  · exact Table.get_insert_self c.symbol_map s n

/-- C8: adding an empty body to a variable succeeds and `get_rules`
afterwards returns a present list having the empty sequence as one
alternative (as opposed to the absent result for an undefined
variable). -/
theorem add_rule_empty_body (c : Cfg) (v : Nat) (h : c.last_token < v) :
    (c.add_rule v []).map (fun c₂ => c₂.get_rules v) =
      .ok (.ok (some ((Table.get c.rules v).getD [] ++ [[]]))) ∧
    [] ∈ (Table.get c.rules v).getD [] ++ [[]] :=
  ⟨Cfg.add_rule_get c v [] h, by simp⟩

/-- Witness for C8: `add_rule 1 []` on the empty grammar makes
`get_rules 1` return `some [[]]`, which contains the empty body. -/
theorem add_rule_empty_body_witness :
    ((Cfg.new 0).add_rule 1 []).map (fun c₂ => c₂.get_rules 1)
        = .ok (.ok (some [[]])) ∧
    ([] : Rule) ∈ [([] : Rule)] :=
  ⟨by simpa [Cfg.new, Table.get] using (add_rule_empty_body (Cfg.new 0) 1 (by decide)).1,
   by decide⟩

/-- C10: `from_pieces` is absent exactly when the start symbol is a token
or some body mentions an above-threshold symbol with no table entry; no
other condition is imposed — an entry with an empty body list, or an entry
keyed by a token id, is accepted. -/
theorem from_pieces_absent_characterization :
    (∀ (production_table : Table (List Rule)) (name_table : Table String)
        (start last_token : Nat),
      Cfg.from_pieces production_table name_table start last_token = none ↔
        start ≤ last_token ∨
        ∃ e ∈ production_table, ∃ rule ∈ e.2, ∃ symbol ∈ rule,
          last_token < symbol ∧ Table.get production_table symbol = none) ∧
    (Cfg.from_pieces [(3, [])] [] 4 2).isSome = true ∧
    (Cfg.from_pieces [(1, [[0]])] [] 3 2).isSome = true :=
  ⟨fun production_table name_table start last_token =>
    Cfg.from_pieces_eq_none_iff production_table name_table start last_token,
   by decide, by decide⟩

/-- Helper for C9: a successful `add_rule` for a different variable leaves
the binding of `v`, the name table and the threshold unchanged. -/
theorem Cfg.add_rule_ok_untouched (c c₃ : Cfg) (v₂ v : Nat) (body : Rule)
    (ha : c.add_rule v₂ body = .ok c₃) (hne : v₂ ≠ v) :
    Table.get c₃.rules v = Table.get c.rules v ∧ c₃.symbol_map = c.symbol_map ∧
    c₃.last_token = c.last_token := by
  unfold Cfg.add_rule at ha
  by_cases hlt : c.last_token < v₂
  · rw [if_pos hlt] at ha
    cases hg : Table.get c.rules v₂ with
    | none =>
      rw [hg] at ha
      cases ha
      exact ⟨Table.get_insert_ne c.rules v₂ v [body] hne, rfl, rfl⟩
    | some rs =>
      rw [hg] at ha
      cases ha
      exact ⟨Table.get_insert_ne c.rules v₂ v (rs ++ [body]) hne, rfl, rfl⟩
  · rw [if_neg hlt] at ha
    cases ha

/-- Helper for C9: a run that never names `s` and never adds a rule for
`v` leaves the bindings of `s` and `v` (and the threshold) unchanged. -/
theorem Cfg.applyOps_untouched (ops : List Op) (c c₂ : Cfg) (s v : Nat)
    (hrun : c.applyOps ops = some c₂)
    (hs : ∀ op ∈ ops, Op.namesSym s op = false)
    (hv : ∀ op ∈ ops, Op.rulesFor v op = false) :
    Table.get c₂.symbol_map s = Table.get c.symbol_map s ∧
    Table.get c₂.rules v = Table.get c.rules v ∧
    c₂.last_token = c.last_token := by
  induction ops generalizing c with
  | nil =>
    rw [Cfg.applyOps] at hrun
    cases hrun
    exact ⟨rfl, rfl, rfl⟩
  | cons op rest ih =>
    cases op with
    | addRule v₂ body =>
      have hne : v₂ ≠ v := by
        simpa [Op.rulesFor] using hv _ (List.mem_cons_self _ _)
      rw [Cfg.applyOps] at hrun
      cases ha : c.add_rule v₂ body with
      | error e =>
        rw [ha] at hrun
        cases hrun
      | ok c₃ =>
        rw [ha] at hrun
        obtain ⟨h₁, h₂, h₃⟩ := ih c₃ hrun
          (fun op hop => hs op (List.mem_cons_of_mem _ hop))
          (fun op hop => hv op (List.mem_cons_of_mem _ hop))
        obtain ⟨g₁, g₂, g₃⟩ := Cfg.add_rule_ok_untouched c c₃ v₂ v body ha hne
        exact ⟨by rw [h₁, g₂], by rw [h₂, g₁], by rw [h₃, g₃]⟩
    | setName s₂ n =>
      have hne : s₂ ≠ s := by
        simpa [Op.namesSym] using hs _ (List.mem_cons_self _ _)
      rw [Cfg.applyOps] at hrun
      obtain ⟨h₁, h₂, h₃⟩ := ih ((c.set_name s₂ n).2) hrun
        (fun op hop => hs op (List.mem_cons_of_mem _ hop))
        (fun op hop => hv op (List.mem_cons_of_mem _ hop))
      exact ⟨h₁.trans (Table.get_insert_ne c.symbol_map s₂ s n hne), h₂, h₃⟩

/-- C9: after any run of mutating calls from a fresh grammar in which the
name of `s` was never set and no rule was ever added for the variable `v`,
`name s` is absent and `get_rules v` returns the absent result (not a
default value).  Both calls are pure lookups in the embedding, so neither
has side effects. -/
theorem undefined_lookups_absent (L : Nat) (ops : List Op) (c : Cfg) (s v : Nat)
    (hrun : (Cfg.new L).applyOps ops = some c)
    (hs : ∀ op ∈ ops, Op.namesSym s op = false)
    (hv : ∀ op ∈ ops, Op.rulesFor v op = false)
    (hvar : L < v) :
    c.name s = none ∧ c.get_rules v = .ok none := by
  obtain ⟨h₁, h₂, h₃⟩ := Cfg.applyOps_untouched ops (Cfg.new L) c s v hrun hs hv
  have hlt : c.last_token < v := by
    rw [h₃]
    exact hvar
  constructor
  · exact h₁
  · unfold Cfg.get_rules
    rw [if_pos hlt, h₂]
    rfl

/-- Witness for C9: a run that adds a rule for variable 2 and names
symbol 2 leaves symbol 1 unnamed and variable 1 without rules. -/
theorem undefined_lookups_absent_witness :
    ({ rules := [(2, [[0]])], symbol_map := [(2, "X")], start := 2 ^ 64 - 1,
       last_token := 0 } : Cfg).name 1 = none ∧
    ({ rules := [(2, [[0]])], symbol_map := [(2, "X")], start := 2 ^ 64 - 1,
       last_token := 0 } : Cfg).get_rules 1 = .ok none :=
  undefined_lookups_absent 0 [Op.addRule 2 [0], Op.setName 2 "X"]
    { rules := [(2, [[0]])], symbol_map := [(2, "X")], start := 2 ^ 64 - 1,
      last_token := 0 } 1 1
    (by decide) (by decide) (by decide) (by decide)
